import Mathlib

/-!
# Verification of the secretary-in-terminal plan scheduler core

Shallow embedding of `srouce/main.py`: the plan-file parser
(`parse_plan_file`), the date lookup (`find_today_schedule`) and the
time-evaluation logic of `render_main_view` (current event, upcoming
non-break events, remaining minutes).

Strings are handled at the level of `List Char`; the two regular
expressions of the source (`day_header_pattern`, `event_pattern`) and the
`strptime` format directives (`%B %d %Y`, `%I:%M %p`) are modelled by
explicit deterministic matchers that agree with the Python semantics on
all inputs (the patterns are analysed below where backtracking could
matter).
-/

namespace Planner

/-! ## Character classes

`Char.isAlpha` is exactly the `[A-Za-z]` class of the source regexes;
`Char.isDigit` is `\d` (the patterns are ASCII); `Char.isWhitespace`
models `\s` and the character class used by `str.strip` (all inputs of
interest are ASCII). -/

/-- Python `str.strip()` on a list of characters. -/
def stripChars (cs : List Char) : List Char :=
  ((cs.dropWhile Char.isWhitespace).reverse.dropWhile Char.isWhitespace).reverse

/-- Python `str.strip()`. -/
def stripStr (s : String) : String :=
  String.mk (stripChars s.data)

/-- Python `str.lower()` (ASCII inputs). -/
def lowerStr (s : String) : String :=
  String.mk (s.data.map Char.toLower)

/-- Numeric value of a digit string (most significant first). -/
def digitsToNat (cs : List Char) : Nat :=
  cs.foldl (fun n c => n * 10 + (c.toNat - 48)) 0

/-! ## Data model

`datetime.date` is a year/month/day triple; `datetime.datetime` values in
this program always have zero seconds and microseconds (event times come
from `%I:%M`, and the main loop truncates `now` with
`replace(second=0, microsecond=0)`), so a datetime is a date plus a
minute-of-day. Python compares dates and datetimes lexicographically by
components, which the orders below reproduce. -/

structure Date where
  year : Nat
  month : Nat
  day : Nat
deriving DecidableEq, Repr

structure DateTime where
  date : Date
  minute : Nat
deriving DecidableEq, Repr

structure Event where
  start : DateTime
  stop : DateTime
  description : String
deriving DecidableEq, Repr

structure DaySchedule where
  date : Option Date
  header : String
  events : List Event
deriving DecidableEq, Repr

/-- Python `<` on `datetime.date`: lexicographic on (year, month, day). -/
def dateLt (a b : Date) : Prop :=
  a.year < b.year ∨ (a.year = b.year ∧
    (a.month < b.month ∨ (a.month = b.month ∧ a.day < b.day)))

instance (a b : Date) : Decidable (dateLt a b) := by
  unfold dateLt; exact inferInstance

/-- Python `<` on `datetime.datetime`: lexicographic, date then time. -/
def dtLt (a b : DateTime) : Prop :=
  dateLt a.date b.date ∨ (a.date = b.date ∧ a.minute < b.minute)

instance (a b : DateTime) : Decidable (dtLt a b) := by
  unfold dtLt; exact inferInstance

/-- Python `<=` on `datetime.datetime` (a total order, so `<` or `=`). -/
def dtLe (a b : DateTime) : Prop :=
  dtLt a b ∨ a = b

instance (a b : DateTime) : Decidable (dtLe a b) := by
  unfold dtLe; exact inferInstance

/-! ## The calendar of `datetime.strptime`

`strptime("%B %d %Y")` builds a `datetime.date`, which validates the
day against the proleptic Gregorian calendar and requires
`MINYEAR = 1 <= year`. -/

/-- Gregorian leap year, as used by `datetime`. -/
def isLeap (y : Nat) : Bool :=
  y % 4 = 0 && (y % 100 ≠ 0 || y % 400 = 0)

/-- Number of days of a month in the proleptic Gregorian calendar. -/
def daysInMonth (y m : Nat) : Nat :=
  if m = 2 then (if isLeap y then 29 else 28)
  else if m = 4 ∨ m = 6 ∨ m = 9 ∨ m = 11 then 30
  else 31

/-- `strptime` `%B`: full English month names, case-insensitively.  A
name matches only as a whole token (a strict prefix match would leave
alphabetic residue that the following format whitespace rejects). -/
def monthFromName (s : String) : Option Nat :=
  let t := lowerStr s
  if t = "january" then some 1
  else if t = "february" then some 2
  else if t = "march" then some 3
  else if t = "april" then some 4
  else if t = "may" then some 5
  else if t = "june" then some 6
  else if t = "july" then some 7
  else if t = "august" then some 8
  else if t = "september" then some 9
  else if t = "october" then some 10
  else if t = "november" then some 11
  else if t = "december" then some 12
  else none

/-- `datetime.strptime(month ++ " " ++ day ++ " " ++ year, "%B %d %Y").date()`
as used at line 59 of the source, where `day` is the suffix-stripped day
token (1-2 digits) and `year` the 4-digit year token.  `%d` accepts the
syntactic range 1..31 and the constructed `date` additionally validates
the day against the month length; year 0000 is below `MINYEAR`.  Returns
`none` exactly when the Python call raises `ValueError`. -/
def strptimeDate (monthS dayS yearS : String) : Option Date :=
  match monthFromName monthS with
  | none => none
  | some mo =>
    let ds := dayS.data
    let ys := yearS.data
    if ds.all Char.isDigit ∧ 1 ≤ ds.length ∧ ds.length ≤ 2 ∧
        1 ≤ digitsToNat ds ∧ digitsToNat ds ≤ 31 ∧
        ys.all Char.isDigit ∧ ys.length = 4 ∧ 1 ≤ digitsToNat ys ∧
        digitsToNat ds ≤ daysInMonth (digitsToNat ys) mo then
      some ⟨digitsToNat ys, mo, digitsToNat ds⟩
    else none

/-- `re.sub(r"(st|nd|rd|th)", "", s)`: delete every leftmost,
non-overlapping occurrence of an ordinal suffix (line 56). -/
def subOrd : List Char → List Char
  | a :: b :: rest =>
    if (a = 's' ∧ b = 't') ∨ (a = 'n' ∧ b = 'd') ∨
        (a = 'r' ∧ b = 'd') ∨ (a = 't' ∧ b = 'h') then
      subOrd rest
    else
      a :: subOrd (b :: rest)
  | other => other

/-- The date computed for a day-header line from its regex groups:
ordinal suffixes are removed from the day token, then the pieces go
through `strptime("%B %d %Y")`; `None` on `ValueError` (lines 56-62). -/
def headerDateOf (monthS dayTok yearS : String) : Option Date :=
  strptimeDate monthS (String.mk (subOrd dayTok.data)) yearS

/-! ## The day-header regex

`^([A-Za-z]+),\s+([A-Za-z]+)\s+(\d{1,2}(?:st|nd|rd|th)?),\s+(\d{4}).*`

All quantifiers can be run by maximal munch: each repeated class is
disjoint from the character that must follow it, except the optional
ordinal suffix, whose single backtracking alternative (suffix present /
absent) is tried explicitly; three or more digits in the day position
fail under both alternatives, as in the regex. -/

/-- Does the two-character sequence form an ordinal suffix? -/
def isOrdPair (a b : Char) : Bool :=
  (a = 's' && b = 't') || (a = 'n' && b = 'd') ||
    (a = 'r' && b = 'd') || (a = 't' && b = 'h')

/-- Match `,\s+(\d{4}).*` and return the year group. -/
def matchHeaderYear (cs : List Char) : Option (List Char) :=
  match cs with
  | ',' :: r1 =>
    let ws := r1.takeWhile Char.isWhitespace
    let r2 := r1.dropWhile Char.isWhitespace
    if ws.isEmpty then none
    else
      match r2 with
      | y1 :: y2 :: y3 :: y4 :: _ =>
        if y1.isDigit && y2.isDigit && y3.isDigit && y4.isDigit then
          some [y1, y2, y3, y4]
        else none
      | _ => none
  | _ => none

/-- Match the day token (with optional ordinal suffix) followed by the
`,\s+(\d{4}).*` tail; returns (day group, year group). -/
def matchHeaderDay (cs : List Char) : Option (List Char × List Char) :=
  let ds := cs.takeWhile Char.isDigit
  let r1 := cs.dropWhile Char.isDigit
  if ds.isEmpty || decide (2 < ds.length) then none
  else
    match r1 with
    | a :: b :: r2 =>
      if isOrdPair a b then
        match matchHeaderYear r2 with
        | some y => some (ds ++ [a, b], y)
        | none =>
          match matchHeaderYear r1 with
          | some y => some (ds, y)
          | none => none
      else
        match matchHeaderYear r1 with
        | some y => some (ds, y)
        | none => none
    | _ =>
      match matchHeaderYear r1 with
      | some y => some (ds, y)
      | none => none

/-- `day_header_pattern.match(line)` (line 32): on success, the four
groups (weekday, month, day token, year). -/
def matchDayHeader (line : String) : Option (String × String × String × String) :=
  let cs := line.data
  let w := cs.takeWhile Char.isAlpha
  let r1 := cs.dropWhile Char.isAlpha
  if w.isEmpty then none
  else
    match r1 with
    | ',' :: r2 =>
      let ws1 := r2.takeWhile Char.isWhitespace
      let r3 := r2.dropWhile Char.isWhitespace
      if ws1.isEmpty then none
      else
        let mon := r3.takeWhile Char.isAlpha
        let r4 := r3.dropWhile Char.isAlpha
        if mon.isEmpty then none
        else
          let ws2 := r4.takeWhile Char.isWhitespace
          let r5 := r4.dropWhile Char.isWhitespace
          if ws2.isEmpty then none
          else
            match matchHeaderDay r5 with
            | some (d, y) => some (String.mk w, String.mk mon, String.mk d, String.mk y)
            | none => none
    | _ => none

/-! ## The event regex

`^(\d{1,2}:\d{2}\s*(?:AM|PM))\s*→\s*(\d{1,2}:\d{2}\s*(?:AM|PM)):\s*(.+)$`

Again deterministic except for the final `\s*(.+)$`: when everything
after the colon is whitespace, `\s*` backs off one character so that
`.+` can match (the source always passes stripped lines, where this
cannot happen). -/

/-- Match one `\d{1,2}:\d{2}\s*(?:AM|PM)` group; returns the matched
characters and the rest of the input. -/
def munchTime (cs : List Char) : Option (List Char × List Char) :=
  let hs := cs.takeWhile Char.isDigit
  let r1 := cs.dropWhile Char.isDigit
  if hs.isEmpty || decide (2 < hs.length) then none
  else
    match r1 with
    | ':' :: m1 :: m2 :: r3 =>
      if m1.isDigit && m2.isDigit then
        let ws := r3.takeWhile Char.isWhitespace
        let r4 := r3.dropWhile Char.isWhitespace
        match r4 with
        | a :: m :: r5 =>
          if (a = 'A' || a = 'P') && m = 'M' then
            some (hs ++ ':' :: m1 :: m2 :: ws ++ [a, 'M'], r5)
          else none
        | _ => none
      else none
    | _ => none

/-- `event_pattern.match(line)` (line 34): on success, the three groups
(start time, end time, description). -/
def matchEvent (line : String) : Option (String × String × String) :=
  match munchTime line.data with
  | none => none
  | some (g1, r1) =>
    match r1.dropWhile Char.isWhitespace with
    | '→' :: r3 =>
      match munchTime (r3.dropWhile Char.isWhitespace) with
      | none => none
      | some (g2, r5) =>
        match r5 with
        | ':' :: r6 =>
          match r6.dropWhile Char.isWhitespace with
          | c :: resid => some (String.mk g1, String.mk g2, String.mk (c :: resid))
          | [] =>
            match r6.getLast? with
            | some c => some (String.mk g1, String.mk g2, String.mk [c])
            | none => none
        | _ => none
    | _ => none

/-! ## `strptime("%I:%M %p")`

CPython compiles the directives to the regex fragments
`%I ↦ (1[0-2]|0[1-9]|[1-9])`, `%M ↦ ([0-5]\d|\d)`,
`%p ↦ (AM|PM)` (case-insensitive), and literal whitespace in the format
to `\s+`; any unconverted trailing data raises `ValueError`. -/

/-- The `%I` directive: alternatives tried in order. -/
def parseHourI : List Char → Option (Nat × List Char)
  | '1' :: c :: rest =>
    if '0' ≤ c ∧ c ≤ '2' then some (10 + (c.toNat - 48), rest)
    else some (1, c :: rest)
  | '0' :: c :: rest =>
    if '1' ≤ c ∧ c ≤ '9' then some (c.toNat - 48, rest) else none
  | c :: rest =>
    if '1' ≤ c ∧ c ≤ '9' then some (c.toNat - 48, rest) else none
  | [] => none

/-- The `%M` directive: alternatives tried in order. -/
def parseMinM : List Char → Option (Nat × List Char)
  | a :: b :: rest =>
    if '0' ≤ a ∧ a ≤ '5' ∧ b.isDigit then
      some (10 * (a.toNat - 48) + (b.toNat - 48), rest)
    else if a.isDigit then some (a.toNat - 48, b :: rest)
    else none
  | [a] => if a.isDigit then some (a.toNat - 48, []) else none
  | [] => none

/-- `datetime.strptime(s, "%I:%M %p").time()` as minute-of-day; `none`
exactly when Python raises (lines 76-77). -/
def parseTime (s : String) : Option Nat :=
  match parseHourI s.data with
  | none => none
  | some (h, r1) =>
    match r1 with
    | ':' :: r2 =>
      match parseMinM r2 with
      | none => none
      | some (m, r3) =>
        let ws := r3.takeWhile Char.isWhitespace
        let r4 := r3.dropWhile Char.isWhitespace
        if ws.isEmpty then none
        else
          match r4 with
          | a :: mm :: r5 =>
            if (a = 'A' || a = 'a' || a = 'P' || a = 'p') && (mm = 'M' || mm = 'm')
                && r5.isEmpty then
              let pm := a = 'P' || a = 'p'
              let h24 := if pm then (if h = 12 then 12 else h + 12)
                         else (if h = 12 then 0 else h)
              some (h24 * 60 + m)
            else none
          | _ => none
    | _ => none

/-! ## The parser state machine (`parse_plan_file`, lines 27-92) -/

/-- The `current_day` dict while its block is still open (its `events`
field is only written when the block is finalized). -/
structure PendingDay where
  date : Option Date
  header : String
deriving DecidableEq, Repr

/-- The loop state of `parse_plan_file`: `days`, `current_day`,
`current_events`. -/
structure ParseState where
  days : List DaySchedule
  currentDay : Option PendingDay
  currentEvents : List Event
deriving DecidableEq, Repr

/-- Lines 89-91: append the open day block, if any. -/
def finalizeDays (st : ParseState) : List DaySchedule :=
  match st.currentDay with
  | some p => st.days ++ [⟨p.date, p.header, st.currentEvents⟩]
  | none => st.days

/-- One iteration of the `for line in lines` loop (lines 37-86).
`Except.error` models the uncaught `TypeError` raised by
`datetime.combine(None, time)` when the block's date failed to parse
(lines 82-83 are outside the `try` of lines 74-80). -/
def parseStep (st : ParseState) (rawLine : String) : Except String ParseState :=
  let line := stripStr rawLine
  if line = "" then .ok st
  else
    match matchDayHeader line with
    | some (_w, monthS, dayTok, yearS) =>
      let st1 : ParseState :=
        match st.currentDay with
        | some p => ⟨st.days ++ [⟨p.date, p.header, st.currentEvents⟩], none, []⟩
        | none => st
      .ok ⟨st1.days, some ⟨headerDateOf monthS dayTok yearS, line⟩, st1.currentEvents⟩
    | none =>
      match matchEvent line with
      | some (startS, endS, desc) =>
        match st.currentDay with
        | some p =>
          match parseTime (stripStr startS), parseTime (stripStr endS) with
          | some stMin, some enMin =>
            match p.date with
            | some d =>
              .ok ⟨st.days, st.currentDay,
                st.currentEvents ++ [⟨⟨d, stMin⟩, ⟨d, enMin⟩, desc⟩]⟩
            | none => .error "TypeError: combine() argument 1 must be date, not None"
          | _, _ => .ok st
        | none => .ok st
      | none => .ok st

/-- The loop over all lines followed by the final flush. -/
def parseLinesAux : ParseState → List String → Except String (List DaySchedule)
  | st, [] => .ok (finalizeDays st)
  | st, l :: ls =>
    match parseStep st l with
    | .ok st1 => parseLinesAux st1 ls
    | .error e => .error e

/-- `parse_plan_file`, applied to the list of lines of the file. -/
def parse_plan_file (lines : List String) : Except String (List DaySchedule) :=
  parseLinesAux ⟨[], none, []⟩ lines

/-- `find_today_schedule` (lines 94-99): first day whose `date` equals
the target (a `None` date never equals a `datetime.date`). -/
def find_today_schedule (days : List DaySchedule) (target : Date) : Option DaySchedule :=
  days.find? (fun d => decide (d.date = some target))

/-! ## The evaluation logic of `render_main_view` (lines 146-203) -/

/-- The sort key order of `sorted(events, key=lambda e: e["start"])`. -/
def evLe (a b : Event) : Prop := dtLe a.start b.start

instance : DecidableRel evLe := fun a b => by unfold evLe; exact inferInstance

theorem dtLe_refl (a : DateTime) : dtLe a a := Or.inr rfl

theorem dtLt_trans {a b c : DateTime} (h1 : dtLt a b) (h2 : dtLt b c) : dtLt a c := by
  obtain ⟨⟨ay, am, ad⟩, ai⟩ := a
  obtain ⟨⟨by1, bm, bd⟩, bi⟩ := b
  obtain ⟨⟨cy, cm, cd⟩, ci⟩ := c
  simp only [dtLt, dateLt, DateTime.mk.injEq, Date.mk.injEq] at *
  omega

theorem dtLe_trans {a b c : DateTime} (h1 : dtLe a b) (h2 : dtLe b c) : dtLe a c := by
  rcases h1 with h1 | rfl
  · rcases h2 with h2 | rfl
    · exact Or.inl (dtLt_trans h1 h2)
    · exact Or.inl h1
  · exact h2

theorem dtLe_total (a b : DateTime) : dtLe a b ∨ dtLe b a := by
  obtain ⟨⟨ay, am, ad⟩, ai⟩ := a
  obtain ⟨⟨by1, bm, bd⟩, bi⟩ := b
  simp only [dtLe, dtLt, dateLt, DateTime.mk.injEq, Date.mk.injEq]
  omega

theorem dtLe_of_not_le {a b : DateTime} (h : ¬ dtLe a b) : dtLe b a :=
  (dtLe_total a b).resolve_left h

instance : IsTotal Event evLe := ⟨fun a b => dtLe_total a.start b.start⟩

instance : IsTrans Event evLe := ⟨fun _ _ _ h1 h2 => dtLe_trans h1 h2⟩

/-- `sorted(events, key=lambda e: e["start"])` (lines 148, 231): the
stable ascending reordering by start time.  Insertion sort with the
non-strict key order is exactly stable: an element is inserted after
every earlier element with an equal key. -/
def sortEventsByStart (l : List Event) : List Event :=
  List.insertionSort evLe l

/-- The containment test of line 152: `start <= now < end`. -/
def eventIsCurrent (e : Event) (now : DateTime) : Bool :=
  decide (dtLe e.start now) && decide (dtLt now e.stop)

/-- Lines 148-154: the first event of the start-sorted list whose
half-open interval contains `now`. -/
def renderCurrentEvent (day : DaySchedule) (now : DateTime) : Option Event :=
  (sortEventsByStart day.events).find? (fun e => eventIsCurrent e now)

/-- Python substring test `needle in hay`. -/
def hasSubstr : List Char → List Char → Bool
  | [], n => n.isEmpty
  | h :: t, n => n.isPrefixOf (h :: t) || hasSubstr t n

/-- `"break" in e["description"].lower()` (line 159). -/
def descHasBreak (e : Event) : Bool :=
  hasSubstr (lowerStr e.description).data ['b', 'r', 'e', 'a', 'k']

/-- The filter applied at line 159. -/
def isUpcomingNonBreak (now : DateTime) (e : Event) : Bool :=
  !descHasBreak e && decide (dtLt now e.start)

/-- `upcoming_non_break` (lines 157-160): start-sorted events that are
strictly future and whose description does not contain "break". -/
def upcomingNonBreak (day : DaySchedule) (now : DateTime) : List Event :=
  (sortEventsByStart day.events).filter (isUpcomingNonBreak now)

/-- The event rendered as next (`upcoming_non_break[0]`, lines 183-203),
in both the current-event and the no-current-event branch. -/
def nextUpcoming (day : DaySchedule) (now : DateTime) : Option Event :=
  (upcomingNonBreak day now).head?

/-- Days since 1970-01-01 of a proleptic Gregorian date (the civil
calendar arithmetic underlying `datetime` subtraction). -/
def daysFromCivil (d : Date) : Int :=
  let y : Int := if d.month ≤ 2 then (d.year : Int) - 1 else (d.year : Int)
  let era : Int := Int.fdiv y 400
  let yoe : Int := y - era * 400
  let m : Int := (d.month : Int)
  let doy : Int := Int.fdiv (153 * (if 2 < d.month then m - 3 else m + 9) + 2) 5
    + (d.day : Int) - 1
  let doe : Int := yoe * 365 + Int.fdiv yoe 4 - Int.fdiv yoe 100 + doy
  era * 146097 + doe - 719468

/-- `(a - b).total_seconds()` for two whole-minute datetimes. -/
def deltaSeconds (a b : DateTime) : Int :=
  (daysFromCivil a.date - daysFromCivil b.date) * 86400
    + ((a.minute : Int) - (b.minute : Int)) * 60

/-- Lines 164-165: `int((current["end"] - current_dt).total_seconds() // 60)`
(`//` is floor division; `int` of an integer-valued float is exact). -/
def remainingMinutes (e : Event) (now : DateTime) : Int :=
  Int.fdiv (deltaSeconds e.stop now) 60

/-! ## Specification-side definitions

These two follow the words of the spec, not the source; the refinement
theorems below compare them with the code-side functions. -/

/-- Modelled from the spec's words: among the elements of the original
list satisfying `p`, the one with the smallest `start`, ties broken by
original order; `none` if no element satisfies `p`. -/
def minByStartSpec (p : Event → Bool) : List Event → Option Event
  | [] => none
  | e :: es =>
    match minByStartSpec p es with
    | none => if p e then some e else none
    | some b => if p e ∧ dtLe e.start b.start then some e else some b

/-- Modelled from the spec's words: the earliest-starting event with
`start <= now < end`, ties broken by original order. -/
def currentSpec (events : List Event) (now : DateTime) : Option Event :=
  minByStartSpec (fun e => eventIsCurrent e now) events

/-- Modelled from the spec's words (amended by the "break" filter of
line 159): the smallest-start event among those with `start > now` whose
description does not contain "break", ties broken by original order. -/
def nextNonBreakSpec (events : List Event) (now : DateTime) : Option Event :=
  minByStartSpec (isUpcomingNonBreak now) events

/-! ## `find?` over a stable ascending sort picks the first minimum -/

theorem head?_filter_eq {α : Type} (p : α → Bool) (l : List α) :
    (l.filter p).head? = l.find? p := by
  induction l with
  | nil => rfl
  | cons a l ih =>
    by_cases h : p a = true
    · simp [List.filter_cons, h]
    · simp [List.filter_cons, h, ih]

theorem find?_orderedInsert (p : Event → Bool) (x : Event) (S : List Event)
    (hS : S.Sorted evLe) :
    (S.orderedInsert evLe x).find? p =
      match S.find? p with
      | none => if p x then some x else none
      | some b => if p x ∧ dtLe x.start b.start then some x else some b := by
  induction S with
  | nil =>
    by_cases hpx : p x = true <;> simp [List.orderedInsert, hpx]
  | cons y ys ih =>
    rw [List.sorted_cons] at hS
    obtain ⟨hy, hys⟩ := hS
    by_cases hxy : evLe x y
    · have hins : (y :: ys).orderedInsert evLe x = x :: y :: ys := by
        simp [List.orderedInsert, hxy]
      rw [hins]
      by_cases hpx : p x = true
      · rw [List.find?_cons_of_pos _ hpx]
        cases hF : (y :: ys).find? p with
        | none => simp [hpx]
        | some b =>
          have hb : b ∈ y :: ys := List.mem_of_find?_eq_some hF
          have hyb : evLe y b := by
            rcases List.mem_cons.mp hb with rfl | h
            · exact dtLe_refl _
            · exact hy b h
          have hxb : dtLe x.start b.start := dtLe_trans hxy hyb
          simp [hpx, hxb]
      · rw [List.find?_cons_of_neg _ hpx]
        cases hF : (y :: ys).find? p with
        | none => simp [hpx]
        | some b => simp [hpx]
    · have hyx : evLe y x := (total_of evLe x y).resolve_left hxy
      have hins : (y :: ys).orderedInsert evLe x = y :: ys.orderedInsert evLe x := by
        simp [List.orderedInsert, hxy]
      rw [hins]
      by_cases hpy : p y = true
      · rw [List.find?_cons_of_pos _ hpy, List.find?_cons_of_pos _ hpy]
        have : ¬ (p x = true ∧ dtLe x.start y.start) := fun h => hxy h.2
        simp [this]
      · rw [List.find?_cons_of_neg _ hpy, List.find?_cons_of_neg _ hpy]
        exact ih hys

theorem find?_sortEventsByStart (p : Event → Bool) (l : List Event) :
    (sortEventsByStart l).find? p = minByStartSpec p l := by
  induction l with
  | nil => rfl
  | cons x xs ih =>
    have hs : (sortEventsByStart xs).Sorted evLe := List.sorted_insertionSort evLe xs
    show (List.orderedInsert evLe x (sortEventsByStart xs)).find? p = _
    rw [find?_orderedInsert p x _ hs, ih]
    rfl

/-! ## Character-class and matcher lemmas -/

theorem isAlpha_eq_false_of_isDigit {c : Char} (h : c.isDigit = true) :
    c.isAlpha = false := by
  simp [Char.isDigit, Char.isAlpha, Char.isUpper, Char.isLower, Char.le_def,
    UInt32.le_def, BitVec.le_def] at *
  omega

theorem munchTime_head {cs : List Char} {t : List Char × List Char}
    (h : munchTime cs = some t) : ∃ c rest, cs = c :: rest ∧ c.isDigit = true := by
  cases cs with
  | nil => simp [munchTime, List.takeWhile] at h
  | cons c rest =>
    by_cases hc : c.isDigit = true
    · exact ⟨c, rest, rfl, hc⟩
    · simp [munchTime, List.takeWhile, hc] at h

/-- A line matched by the event pattern starts with a digit and so cannot
match the day-header pattern (which starts with `[A-Za-z]+`). -/
theorem matchDayHeader_eq_none_of_matchEvent {l : String} {t : String × String × String}
    (h : matchEvent l = some t) : matchDayHeader l = none := by
  have hd : ∃ c rest, l.data = c :: rest ∧ c.isDigit = true := by
    unfold matchEvent at h
    cases h1 : munchTime l.data with
    | none => rw [h1] at h; exact absurd h (by simp)
    | some g => exact munchTime_head h1
  obtain ⟨c, rest, hl, hc⟩ := hd
  unfold matchDayHeader
  rw [hl]
  simp [List.takeWhile, isAlpha_eq_false_of_isDigit hc]

/-- The description group `(.+)` of a matched event line is non-empty. -/
theorem matchEvent_desc_ne {l s e d : String}
    (h : matchEvent l = some (s, e, d)) : d ≠ "" := by
  unfold matchEvent at h
  split at h
  · exact absurd h (by simp)
  · split at h
    · split at h
      · exact absurd h (by simp)
      · split at h
        · split at h
          · simp only [Option.some.injEq, Prod.mk.injEq] at h
            intro hc
            rw [← h.2.2] at hc
            simp [String.ext_iff] at hc
          · split at h
            · simp only [Option.some.injEq, Prod.mk.injEq] at h
              intro hc
              rw [← h.2.2] at hc
              simp [String.ext_iff] at hc
            · exact absurd h (by simp)
        · exact absurd h (by simp)
    · exact absurd h (by simp)

/-! ## Equation lemmas for the parser step -/

theorem parseStep_blank (st : ParseState) {l : String} (h : stripStr l = "") :
    parseStep st l = .ok st := by
  simp [parseStep, h]

theorem parseStep_header (st : ParseState) {l w mS dTok yS : String}
    (h0 : ¬ stripStr l = "") (h : matchDayHeader (stripStr l) = some (w, mS, dTok, yS)) :
    parseStep st l = .ok ⟨finalizeDays st, some ⟨headerDateOf mS dTok yS, stripStr l⟩,
      match st.currentDay with | some _ => [] | none => st.currentEvents⟩ := by
  cases hcd : st.currentDay <;> simp [parseStep, h0, h, finalizeDays, hcd]

theorem parseStep_nomatch (st : ParseState) {l : String}
    (h0 : ¬ stripStr l = "") (h1 : matchDayHeader (stripStr l) = none)
    (h2 : matchEvent (stripStr l) = none) :
    parseStep st l = .ok st := by
  simp [parseStep, h0, h1, h2]

theorem parseStep_event_nocur (st : ParseState) {l s e d : String}
    (h0 : ¬ stripStr l = "") (h1 : matchDayHeader (stripStr l) = none)
    (h2 : matchEvent (stripStr l) = some (s, e, d))
    (hcd : st.currentDay = none) :
    parseStep st l = .ok st := by
  simp [parseStep, h0, h1, h2, hcd]

theorem parseStep_event_badtime (st : ParseState) {l s e d : String} {p : PendingDay}
    (h0 : ¬ stripStr l = "") (h1 : matchDayHeader (stripStr l) = none)
    (h2 : matchEvent (stripStr l) = some (s, e, d))
    (hcd : st.currentDay = some p)
    (ht : parseTime (stripStr s) = none ∨ parseTime (stripStr e) = none) :
    parseStep st l = .ok st := by
  cases ht1 : parseTime (stripStr s) with
  | none =>
    cases ht2 : parseTime (stripStr e) with
    | none => simp [parseStep, h0, h1, h2, hcd, ht1, ht2]
    | some b => simp [parseStep, h0, h1, h2, hcd, ht1, ht2]
  | some a =>
    cases ht2 : parseTime (stripStr e) with
    | none => simp [parseStep, h0, h1, h2, hcd, ht1, ht2]
    | some b =>
      rw [ht1, ht2] at ht
      rcases ht with ht | ht <;> exact absurd ht (by simp)

theorem parseStep_event_nodate (st : ParseState) {l s e d : String} {p : PendingDay}
    {a b : Nat}
    (h0 : ¬ stripStr l = "") (h1 : matchDayHeader (stripStr l) = none)
    (h2 : matchEvent (stripStr l) = some (s, e, d))
    (hcd : st.currentDay = some p)
    (ht1 : parseTime (stripStr s) = some a) (ht2 : parseTime (stripStr e) = some b)
    (hd : p.date = none) :
    parseStep st l = .error "TypeError: combine() argument 1 must be date, not None" := by
  simp [parseStep, h0, h1, h2, hcd, ht1, ht2, hd]

theorem parseStep_event_add (st : ParseState) {l s e d : String} {p : PendingDay}
    {a b : Nat} {dd : Date}
    (h0 : ¬ stripStr l = "") (h1 : matchDayHeader (stripStr l) = none)
    (h2 : matchEvent (stripStr l) = some (s, e, d))
    (hcd : st.currentDay = some p)
    (ht1 : parseTime (stripStr s) = some a) (ht2 : parseTime (stripStr e) = some b)
    (hd : p.date = some dd) :
    parseStep st l = .ok ⟨st.days, st.currentDay,
      st.currentEvents ++ [⟨⟨dd, a⟩, ⟨dd, b⟩, d⟩]⟩ := by
  simp [parseStep, h0, h1, h2, hcd, ht1, ht2, hd]

/-! ## Blank lines are irrelevant to the parse -/

theorem parseLinesAux_filter_blank (ls : List String) : ∀ st : ParseState,
    parseLinesAux st (ls.filter (fun l => !(stripStr l == ""))) = parseLinesAux st ls := by
  induction ls with
  | nil => intro st; rfl
  | cons l ls ih =>
    intro st
    by_cases h : stripStr l = ""
    · rw [List.filter_cons]
      have hf : (!(stripStr l == "")) = false := by simp [h]
      rw [hf]
      simp only [Bool.false_eq_true, if_false]
      have hstep : parseLinesAux st (l :: ls) = parseLinesAux st ls := by
        show (match parseStep st l with
          | Except.ok st1 => parseLinesAux st1 ls
          | Except.error e => Except.error e) = _
        rw [parseStep_blank st h]
      rw [hstep]
      exact ih st
    · rw [List.filter_cons]
      have hf : (!(stripStr l == "")) = true := by simp [h]
      rw [hf]
      simp only [if_true]
      show (match parseStep st l with
          | Except.ok st1 => parseLinesAux st1 _
          | Except.error e => Except.error e) =
        (match parseStep st l with
          | Except.ok st1 => parseLinesAux st1 ls
          | Except.error e => Except.error e)
      cases hs : parseStep st l with
      | ok st1 => exact ih st1
      | error e => rfl

/-! ## The headers of the parsed days, in order -/

/-- The header of the still-open block, if any. -/
def pendingHeaders (st : ParseState) : List String :=
  match st.currentDay with
  | some p => [p.header]
  | none => []

/-- Is the (stripped) line a day-header line? -/
def isHeaderLine (l : String) : Bool :=
  (matchDayHeader l).isSome

theorem parseLinesAux_headers (ls : List String) : ∀ st : ParseState, ∀ days,
    parseLinesAux st ls = .ok days →
    days.map DaySchedule.header =
      st.days.map DaySchedule.header ++ pendingHeaders st ++
        (ls.map stripStr).filter isHeaderLine := by
  induction ls with
  | nil =>
    intro st days h
    have hd : days = finalizeDays st := by
      unfold parseLinesAux at h
      exact (Except.ok.injEq .. ▸ h).symm
    subst hd
    cases hcd : st.currentDay <;>
      simp [finalizeDays, hcd, pendingHeaders]
  | cons l ls ih =>
    intro st days h
    unfold parseLinesAux at h
    by_cases hb : stripStr l = ""
    · rw [parseStep_blank st hb] at h
      have hnil : isHeaderLine (stripStr l) = false := by
        rw [hb]; rfl
      simp only [List.map_cons, List.filter_cons, hnil]
      simp only [Bool.false_eq_true, if_false]
      exact ih st days h
    · cases hh : matchDayHeader (stripStr l) with
      | some t =>
        obtain ⟨w, mS, dTok, yS⟩ := t
        rw [parseStep_header st hb hh] at h
        have := ih _ days h
        rw [this]
        have hkeep : isHeaderLine (stripStr l) = true := by
          simp [isHeaderLine, hh]
        simp only [List.map_cons, List.filter_cons, hkeep, if_true]
        cases hcd : st.currentDay <;>
          simp [finalizeDays, hcd, pendingHeaders]
      | none =>
        have hdrop : isHeaderLine (stripStr l) = false := by
          simp [isHeaderLine, hh]
        simp only [List.map_cons, List.filter_cons, hdrop, Bool.false_eq_true, if_false]
        cases he : matchEvent (stripStr l) with
        | none =>
          rw [parseStep_nomatch st hb hh he] at h
          exact ih st days h
        | some t =>
          obtain ⟨s, e, d⟩ := t
          cases hcd : st.currentDay with
          | none =>
            rw [parseStep_event_nocur st hb hh he hcd] at h
            exact ih st days h
          | some p =>
            cases ht1 : parseTime (stripStr s) with
            | none =>
              rw [parseStep_event_badtime st hb hh he hcd (Or.inl ht1)] at h
              exact ih st days h
            | some a =>
              cases ht2 : parseTime (stripStr e) with
              | none =>
                rw [parseStep_event_badtime st hb hh he hcd (Or.inr ht2)] at h
                exact ih st days h
              | some b =>
                cases hd : p.date with
                | none =>
                  rw [parseStep_event_nodate st hb hh he hcd ht1 ht2 hd] at h
                  exact absurd h (by simp)
                | some dd =>
                  rw [parseStep_event_add st hb hh he hcd ht1 ht2 hd] at h
                  have hih := ih _ days h
                  rw [hih]
                  simp [pendingHeaders, hcd]

/-! ## Invariant: a stored event lives on its block's date -/

/-- An event stored under the date `dd`: both endpoints carry `dd` (they
were built by `datetime.combine(dd, ·)`) and the description is the
non-empty `(.+)` group. -/
def eventOK (dd : Date) (e : Event) : Prop :=
  e.start.date = dd ∧ e.stop.date = dd ∧ e.description ≠ ""

/-- Every event of a finished day block has the block's (present) date. -/
def dayOK (day : DaySchedule) : Prop :=
  ∀ e ∈ day.events, ∃ dd, day.date = some dd ∧ eventOK dd e

/-- Every pending event is attached to the open block, which has a
present date. -/
def stateOK (st : ParseState) : Prop :=
  (∀ day ∈ st.days, dayOK day) ∧
    ∀ e ∈ st.currentEvents, ∃ p dd, st.currentDay = some p ∧ p.date = some dd ∧ eventOK dd e

theorem stateOK_finalize {st : ParseState} (h : stateOK st) :
    ∀ day ∈ finalizeDays st, dayOK day := by
  obtain ⟨hdays, hpend⟩ := h
  cases hcd : st.currentDay with
  | none =>
    intro day hday
    rw [finalizeDays, hcd] at hday
    exact hdays day hday
  | some p =>
    intro day hday
    rw [finalizeDays, hcd] at hday
    rcases List.mem_append.mp hday with hmem | hmem
    · exact hdays day hmem
    · rcases List.mem_singleton.mp hmem with rfl
      intro e he
      obtain ⟨p2, dd, hp2, hpd, hok⟩ := hpend e he
      rw [hcd] at hp2
      obtain rfl := (Option.some.injEq .. ▸ hp2)
      exact ⟨dd, hpd, hok⟩

theorem parseStep_stateOK {st st1 : ParseState} {l : String}
    (h : stateOK st) (hs : parseStep st l = .ok st1) : stateOK st1 := by
  by_cases hb : stripStr l = ""
  · rw [parseStep_blank st hb] at hs
    obtain rfl := (Except.ok.injEq .. ▸ hs)
    exact h
  · cases hh : matchDayHeader (stripStr l) with
    | some t =>
      obtain ⟨w, mS, dTok, yS⟩ := t
      rw [parseStep_header st hb hh] at hs
      obtain rfl := (Except.ok.injEq .. ▸ hs)
      constructor
      · exact stateOK_finalize h
      · intro e he
        cases hcd : st.currentDay with
        | some p => rw [hcd] at he; exact absurd he (by simp)
        | none =>
          rw [hcd] at he
          obtain ⟨p2, dd, hp2, -⟩ := h.2 e he
          rw [hcd] at hp2
          exact absurd hp2 (by simp)
    | none =>
      cases he : matchEvent (stripStr l) with
      | none =>
        rw [parseStep_nomatch st hb hh he] at hs
        obtain rfl := (Except.ok.injEq .. ▸ hs)
        exact h
      | some t =>
        obtain ⟨s, e, d⟩ := t
        cases hcd : st.currentDay with
        | none =>
          rw [parseStep_event_nocur st hb hh he hcd] at hs
          obtain rfl := (Except.ok.injEq .. ▸ hs)
          exact h
        | some p =>
          cases ht1 : parseTime (stripStr s) with
          | none =>
            rw [parseStep_event_badtime st hb hh he hcd (Or.inl ht1)] at hs
            obtain rfl := (Except.ok.injEq .. ▸ hs)
            exact h
          | some a =>
            cases ht2 : parseTime (stripStr e) with
            | none =>
              rw [parseStep_event_badtime st hb hh he hcd (Or.inr ht2)] at hs
              obtain rfl := (Except.ok.injEq .. ▸ hs)
              exact h
            | some b =>
              cases hd : p.date with
              | none =>
                rw [parseStep_event_nodate st hb hh he hcd ht1 ht2 hd] at hs
                exact absurd hs (by simp)
              | some dd =>
                rw [parseStep_event_add st hb hh he hcd ht1 ht2 hd] at hs
                obtain rfl := (Except.ok.injEq .. ▸ hs)
                refine ⟨h.1, ?_⟩
                intro ev hev
                rcases List.mem_append.mp hev with hmem | hmem
                · exact h.2 ev hmem
                · rcases List.mem_singleton.mp hmem with rfl
                  exact ⟨p, dd, hcd, hd, rfl, rfl, matchEvent_desc_ne he⟩

theorem parseLinesAux_dayOK (ls : List String) : ∀ st : ParseState, ∀ days,
    stateOK st → parseLinesAux st ls = .ok days → ∀ day ∈ days, dayOK day := by
  induction ls with
  | nil =>
    intro st days h hok
    have hd : days = finalizeDays st := by
      unfold parseLinesAux at hok
      exact (Except.ok.injEq .. ▸ hok).symm
    subst hd
    exact stateOK_finalize h
  | cons l ls ih =>
    intro st days h hok
    unfold parseLinesAux at hok
    cases hs : parseStep st l with
    | ok st1 =>
      rw [hs] at hok
      exact ih st1 days (parseStep_stateOK h hs) hok
    | error e =>
      rw [hs] at hok
      exact absurd hok (by simp)

/-- Main invariant of the parser: in a successful parse, every stored
event carries its block's date on both endpoints and has a non-empty
description. -/
theorem parse_events_dated {lines : List String} {days : List DaySchedule}
    (h : parse_plan_file lines = .ok days) :
    ∀ day ∈ days, ∀ e ∈ day.events,
      ∃ dd, day.date = some dd ∧ e.start.date = dd ∧ e.stop.date = dd ∧
        e.description ≠ "" := by
  intro day hday e he
  have hok : stateOK ⟨[], none, []⟩ := by
    constructor
    · intro d hd; exact absurd hd (by simp)
    · intro ev hev; exact absurd hev (by simp)
  obtain ⟨dd, hdd, hok2⟩ := parseLinesAux_dayOK lines _ days hok h day hday e he
  exact ⟨dd, hdd, hok2⟩

/-! ## Date-order helper lemmas -/

theorem dateLt_irrefl (d : Date) : ¬ dateLt d d := by
  unfold dateLt; omega

theorem dateLt_asymm {a b : Date} (h1 : dateLt a b) (h2 : dateLt b a) : False := by
  obtain ⟨ay, am, ad⟩ := a
  obtain ⟨by1, bm, bd⟩ := b
  simp only [dateLt] at h1 h2
  omega

theorem dtLt_of_eq_date {a b : DateTime} (h : a.date = b.date) :
    dtLt a b ↔ a.minute < b.minute := by
  unfold dtLt
  constructor
  · rintro (hlt | ⟨-, hm⟩)
    · rw [h] at hlt; exact absurd hlt (dateLt_irrefl _)
    · exact hm
  · intro hm; exact Or.inr ⟨h, hm⟩

/-! ## The concrete inputs used by counterexamples, scenarios and witnesses -/

/-- The plan text of the spec's scenario, as lines. -/
def scenarioLines : List String :=
  ["Monday, April 7th, 2025 - No Gym",
   "9:00 AM → 10:15 AM: Write report",
   "11:00 AM → 12:00 PM: Review"]

def april7 : Date := ⟨2025, 4, 7⟩

def writeEvt : Event := ⟨⟨april7, 540⟩, ⟨april7, 615⟩, "Write report"⟩

def reviewEvt : Event := ⟨⟨april7, 660⟩, ⟨april7, 720⟩, "Review"⟩

def scenarioDay : DaySchedule :=
  ⟨some april7, "Monday, April 7th, 2025 - No Gym", [writeEvt, reviewEvt]⟩

/-- 2025-04-07 09:30, the scenario's evaluation instant. -/
def nineThirty : DateTime := ⟨april7, 570⟩

def brkEvt : Event := ⟨⟨april7, 600⟩, ⟨april7, 630⟩, "Coffee break"⟩

def mtgEvt : Event := ⟨⟨april7, 660⟩, ⟨april7, 720⟩, "Meeting"⟩

def c2day : DaySchedule := ⟨some april7, "hdr", [brkEvt, mtgEvt]⟩

/-- 2025-04-07 09:00. -/
def nineAM : DateTime := ⟨april7, 540⟩

/-! ## Claim theorems -/

/-- Claim C1: the claim states that `parse` never raises on malformed
content; in particular a day block whose date construction failed still
processes well-formed event lines without raising.  The code violates
this: "April 31st" fails date construction (the header date is absent),
both times of the following event line parse, and
`datetime.combine(None, time)` then raises an uncaught `TypeError`.
This theorem evaluates the embedded parser at that failing input. -/
theorem claim_C1_dateless_event_crash :
    headerDateOf "April" "31st" "2025" = none ∧
    (parseTime "9:00 AM").isSome = true ∧ (parseTime "10:15 AM").isSome = true ∧
    parse_plan_file ["Wednesday, April 31st, 2025 - Gym",
        "9:00 AM → 10:15 AM: Write report"] =
      .error "TypeError: combine() argument 1 must be date, not None" :=
  ⟨rfl, rfl, rfl, rfl⟩

/-- Claim C2, counterexample: the claim states that `next` is the
minimum-start event among all events with `start > now`, regardless of
"break" labels.  At 09:00, "Coffee break" (10:00) and "Meeting" (11:00)
are both strictly future, yet the code reports "Meeting" as next, because
line 159 filters out descriptions containing "break". -/
theorem claim_C2_break_filtered_cex :
    nextUpcoming c2day nineAM = some mtgEvt ∧
    brkEvt ∈ c2day.events ∧ dtLt nineAM brkEvt.start ∧
    dtLt brkEvt.start mtgEvt.start := by
  refine ⟨by decide, by decide, by decide, by decide⟩

/-- Claim C2, amended: for every day schedule and time `now`, the
reported next event is the minimum-start event among the events with
`start > now` whose description does not contain "break"
(case-insensitively), ties broken by original order, independent of
whether a current event exists; absent if there is no such event. -/
theorem claim_C2_next_refines (day : DaySchedule) (now : DateTime) :
    nextUpcoming day now = nextNonBreakSpec day.events now := by
  unfold nextUpcoming upcomingNonBreak nextNonBreakSpec
  rw [head?_filter_eq]
  exact find?_sortEventsByStart _ _

/-- Claim C3, counterexample: the claim states every parsed event
satisfies `start < end`; the parser stores "10:00 AM → 9:00 AM" as-is,
producing an event with `start > end`. -/
theorem claim_C3_backwards_event_cex :
    parse_plan_file ["Monday, April 7th, 2025", "10:00 AM → 9:00 AM: Backwards"] =
      .ok [⟨some april7, "Monday, April 7th, 2025",
        [⟨⟨april7, 600⟩, ⟨april7, 540⟩, "Backwards"⟩]⟩] ∧
    ¬ dtLt (⟨april7, 600⟩ : DateTime) ⟨april7, 540⟩ :=
  ⟨rfl, by decide⟩

/-- Claim C3, amended: the parser does not enforce `start < end`; a
stored event satisfies `start < end` exactly when its start time-of-day
is strictly earlier than its end time-of-day (both endpoints always
sit on the block's date). -/
theorem claim_C3_start_lt_iff_minutes (lines : List String) (days : List DaySchedule)
    (h : parse_plan_file lines = .ok days) (day : DaySchedule) (hd : day ∈ days)
    (e : Event) (he : e ∈ day.events) :
    dtLt e.start e.stop ↔ e.start.minute < e.stop.minute := by
  obtain ⟨dd, -, hs, hstop, -⟩ := parse_events_dated h day hd e he
  exact dtLt_of_eq_date (hs.trans hstop.symm)

/-- Claim C3, witness for the amended theorem, at the scenario input. -/
theorem claim_C3_witness :
    dtLt writeEvt.start writeEvt.stop ↔ writeEvt.start.minute < writeEvt.stop.minute :=
  claim_C3_start_lt_iff_minutes scenarioLines [scenarioDay] (by rfl)
    scenarioDay (by decide) writeEvt (by decide)

/-- Claim C4: for every day schedule and time `now`, the current event is
exactly the earliest-starting event with `start <= now < end` (half-open
containment), ties broken by original order, and absent when no event
contains `now` — the code's find-first over the stable start-sorted list
equals the spec-side first minimum over the original list. -/
theorem claim_C4_current_refines (day : DaySchedule) (now : DateTime) :
    renderCurrentEvent day now = currentSpec day.events now := by
  unfold renderCurrentEvent currentSpec
  exact find?_sortEventsByStart _ _

/-- Claim C5: an event line whose time tokens match the pattern but whose
start or end fails time parsing is discarded entirely: the parser state
is unchanged (no partial event, no error), and a day block whose only
event line is "25:99 AM → 10:00 AM: X" parses with zero events. -/
theorem claim_C5_badtime_discarded :
    (∀ (st : ParseState) (l s e d : String),
      matchEvent (stripStr l) = some (s, e, d) →
      parseTime (stripStr s) = none ∨ parseTime (stripStr e) = none →
      parseStep st l = .ok st) ∧
    parse_plan_file ["Monday, April 7th, 2025 - No Gym", "25:99 AM → 10:00 AM: X"] =
      .ok [⟨some april7, "Monday, April 7th, 2025 - No Gym", []⟩] := by
  constructor
  · intro st l s e d hm ht
    have hb : ¬ stripStr l = "" := by
      intro hc
      rw [hc] at hm
      have h0 : matchEvent "" = none := rfl
      rw [h0] at hm
      cases hm
    have hh : matchDayHeader (stripStr l) = none :=
      matchDayHeader_eq_none_of_matchEvent hm
    cases hcd : st.currentDay with
    | none => exact parseStep_event_nocur st hb hh hm hcd
    | some p => exact parseStep_event_badtime st hb hh hm hcd ht
  · rfl

/-- Claim C5, witness: the discarded-line theorem applied to the
malformed line of the spec's scenario, from the initial parser state. -/
theorem claim_C5_witness :
    parseStep ⟨[], none, []⟩ "25:99 AM → 10:00 AM: X" = .ok ⟨[], none, []⟩ :=
  claim_C5_badtime_discarded.1 ⟨[], none, []⟩ "25:99 AM → 10:00 AM: X"
    "25:99 AM" "10:00 AM" "X" (by rfl) (Or.inl (by rfl))

/-- Claim C6: `find_today_schedule` returns the first `DaySchedule` in
file order whose date equals the target, and absent when none matches; a
schedule with an absent date never matches (its `date` is not
`some target`), and with duplicate date headers the earliest block wins
— equivalently, it is the head of the date-filtered list. -/
theorem claim_C6_find_first (days : List DaySchedule) (target : Date) :
    find_today_schedule days target =
      (days.filter (fun d => decide (d.date = some target))).head? := by
  unfold find_today_schedule
  exact (head?_filter_eq _ _).symm

/-- Claim C7: a successful parse yields exactly one `DaySchedule` per
day-header line, in file order (their retained headers are precisely the
stripped header lines, in order), and blank (whitespace-only) lines are
irrelevant: removing them does not change the parse result. -/
theorem claim_C7_headers_and_blanks :
    (∀ (lines : List String) (days : List DaySchedule),
      parse_plan_file lines = .ok days →
      days.map DaySchedule.header = (lines.map stripStr).filter isHeaderLine) ∧
    ∀ lines : List String,
      parse_plan_file lines = parse_plan_file (lines.filter (fun l => !(stripStr l == ""))) := by
  constructor
  · intro lines days h
    have := parseLinesAux_headers lines ⟨[], none, []⟩ days h
    simpa [pendingHeaders] using this
  · intro lines
    exact (parseLinesAux_filter_blank lines ⟨[], none, []⟩).symm

/-- Claim C7, witness: the header-count theorem applied to the spec's
three-line scenario (one header line, one day schedule). -/
theorem claim_C7_witness :
    [scenarioDay].map DaySchedule.header = (scenarioLines.map stripStr).filter isHeaderLine :=
  claim_C7_headers_and_blanks.1 scenarioLines [scenarioDay] (by rfl)

/-- Claim C8: whenever a current event exists, the remaining time equals
`end - now` in exact whole minutes (the floor is exact, both instants
being whole minutes on the same date) and is never negative; in the
scenario, "Write report" (9:00-10:15) evaluated at 09:30 has 45 minutes
remaining and "Review" is next. -/
theorem claim_C8_remaining :
    (∀ (day : DaySchedule) (now : DateTime) (e : Event),
      e.start.date = e.stop.date →
      renderCurrentEvent day now = some e →
      remainingMinutes e now = (e.stop.minute : Int) - (now.minute : Int) ∧
        0 ≤ remainingMinutes e now) ∧
    renderCurrentEvent scenarioDay nineThirty = some writeEvt ∧
    remainingMinutes writeEvt nineThirty = 45 ∧
    nextUpcoming scenarioDay nineThirty = some reviewEvt := by
  refine ⟨?_, by decide, by decide, by decide⟩
  intro day now e hdates hcur
  unfold renderCurrentEvent at hcur
  have hp0 := List.find?_some hcur
  have hp2 : dtLe e.start now ∧ dtLt now e.stop := by
    simpa [eventIsCurrent] using hp0
  obtain ⟨hle, hlt⟩ := hp2
  have hnd : now.date = e.stop.date := by
    rcases hle with hlt1 | heq
    · rcases hlt1 with hdl | ⟨hde, -⟩
      · rcases hlt with hdl2 | ⟨hde2, -⟩
        · rw [hdates] at hdl
          exact (dateLt_asymm hdl hdl2).elim
        · exact hde2
      · exact hde.symm.trans hdates
    · rw [← heq]; exact hdates
  have hmin : now.minute < e.stop.minute := (dtLt_of_eq_date hnd).mp hlt
  have hdelta : deltaSeconds e.stop now =
      ((e.stop.minute : Int) - (now.minute : Int)) * 60 := by
    unfold deltaSeconds
    rw [hnd]
    ring
  unfold remainingMinutes
  rw [hdelta, Int.mul_fdiv_cancel _ (by norm_num)]
  omega

/-- Claim C8, witness: the remaining-minutes theorem applied at the
scenario instant. -/
theorem claim_C8_witness :
    remainingMinutes writeEvt nineThirty =
      ((writeEvt.stop.minute : Int) - (nineThirty.minute : Int)) ∧
    0 ≤ remainingMinutes writeEvt nineThirty :=
  claim_C8_remaining.1 scenarioDay nineThirty writeEvt (by decide) (by decide)

/-! ## Helpers for the ordinal-suffix claim -/

theorem digit_pair_not_ord {a b : Char} (ha : a.isDigit = true) :
    ¬ ((a = 's' ∧ b = 't') ∨ (a = 'n' ∧ b = 'd') ∨
        (a = 'r' ∧ b = 'd') ∨ (a = 't' ∧ b = 'h')) := by
  rintro (⟨rfl, -⟩ | ⟨rfl, -⟩ | ⟨rfl, -⟩ | ⟨rfl, -⟩) <;> exact absurd ha (by decide)

theorem subOrd_cons_of_not {a b : Char} (rest : List Char)
    (h : ¬ ((a = 's' ∧ b = 't') ∨ (a = 'n' ∧ b = 'd') ∨
        (a = 'r' ∧ b = 'd') ∨ (a = 't' ∧ b = 'h'))) :
    subOrd (a :: b :: rest) = a :: subOrd (b :: rest) := by
  simp only [subOrd]
  rw [if_neg h]

/-- Stripping the ordinal suffix from a digit token leaves the digits. -/
theorem subOrd_digits_append (ds suf : List Char)
    (hds : ∀ c ∈ ds, c.isDigit = true)
    (hsuf : suf ∈ [['s', 't'], ['n', 'd'], ['r', 'd'], ['t', 'h']]) :
    subOrd (ds ++ suf) = ds := by
  induction ds with
  | nil =>
    simp only [List.nil_append]
    fin_cases hsuf <;> rfl
  | cons a ds2 ih =>
    have ha : a.isDigit = true := hds a (by simp)
    have hds2 : ∀ c ∈ ds2, c.isDigit = true := fun c hc => hds c (by simp [hc])
    cases ds2 with
    | nil =>
      fin_cases hsuf <;>
        · simp only [List.cons_append, List.nil_append]
          rw [subOrd_cons_of_not _ (digit_pair_not_ord ha)]
          rfl
    | cons b ds3 =>
      rw [List.cons_append, List.cons_append,
        subOrd_cons_of_not _ (digit_pair_not_ord ha)]
      rw [← List.cons_append]
      rw [ih hds2]

theorem daysInMonth_ge28 (y m : Nat) : 28 ≤ daysInMonth y m := by
  unfold daysInMonth
  split_ifs <;> omega

/-- Claim C9: ordinal suffixes are stripped from the day token before
date construction — stripping any suffix from a digit token leaves the
digits, and the tokens "1st", "2nd", "3rd", "4th" combined with any
valid month name and 4-digit year yield days 1, 2, 3, 4. -/
theorem claim_C9_ordinal_strip :
    (∀ (ds suf : List Char), (∀ c ∈ ds, c.isDigit = true) →
      suf ∈ [['s', 't'], ['n', 'd'], ['r', 'd'], ['t', 'h']] →
      subOrd (ds ++ suf) = ds) ∧
    ∀ (mS yS : String) (mo : Nat), monthFromName mS = some mo →
      yS.data.all Char.isDigit = true → yS.data.length = 4 →
      1 ≤ digitsToNat yS.data →
      ∀ tok n, (tok, n) ∈ [("1st", 1), ("2nd", 2), ("3rd", 3), ("4th", 4)] →
        headerDateOf mS tok yS = some ⟨digitsToNat yS.data, mo, n⟩ := by
  constructor
  · exact subOrd_digits_append
  · intro mS yS mo hmo hys hlen hpos tok n htok
    fin_cases htok <;>
      · simp only [headerDateOf, strptimeDate, hmo]
        rw [if_pos ⟨by decide, by decide, by decide, by decide, by decide, hys, hlen,
          hpos, le_trans (by decide) (daysInMonth_ge28 _ _)⟩]
        rfl

/-- Claim C9, witness: the token "3rd" with April 2025 gives day 3. -/
theorem claim_C9_witness :
    headerDateOf "April" "3rd" "2025" = some ⟨2025, 4, 3⟩ :=
  claim_C9_ordinal_strip.2 "April" "2025" 4 (by rfl) (by rfl) (by rfl) (by decide)
    "3rd" 3 (by decide)

/-- Claim C10: every event stored under a successfully-dated day block
has both endpoints on that block's calendar date (so an event written to
span midnight still gets its end on the start's day) and a non-empty
description; blocks without a date hold no events in a successful
parse. -/
theorem claim_C10_event_dates (lines : List String) (days : List DaySchedule)
    (h : parse_plan_file lines = .ok days) (day : DaySchedule) (hd : day ∈ days)
    (e : Event) (he : e ∈ day.events) :
    ∃ dd, day.date = some dd ∧ e.start.date = dd ∧ e.stop.date = dd ∧
      e.description ≠ "" :=
  parse_events_dated h day hd e he

/-- Claim C10, witness: the scenario's first event. -/
theorem claim_C10_witness :
    ∃ dd, scenarioDay.date = some dd ∧ writeEvt.start.date = dd ∧
      writeEvt.stop.date = dd ∧ writeEvt.description ≠ "" :=
  claim_C10_event_dates scenarioLines [scenarioDay] (by rfl) scenarioDay (by decide)
    writeEvt (by decide)

end Planner
